import Mathlib

/-!
Shallow embedding of the Traffic-lyt web client's hotspots caching layer and
map-page helpers, together with proofs checking the specification's claims
against the code.

Embedded functions (TypeScript sources, `apps/web/app/lib/api.ts` and the map
page / zone-compare components):
  - `hotspotsCacheKey`, the cache-key derivation over `FetchHotspotsParams`;
  - the `hotspotsCache` Map with `pruneHotspotsCache` and the stateful core of
    `fetchHotspotsGridCached` (lookup / in-flight dedupe / TTL check / miss),
    modelled as explicit state passing over an association list that mirrors
    JavaScript `Map` insertion-order semantics;
  - `fetchHotspotsWithRetry`, the client-side 429 backoff loop;
  - `busiestHour` / `busiestDay` reductions;
  - `addZone` from the zone-compare panel.

TypeScript `number` values appearing here are integers (millisecond
timestamps, counts, grid sizes), modelled as `Nat`; JavaScript strings are
modelled as `String`, with string operations that the kernel can evaluate
(`List Char` helpers) where the built-in ones do not reduce.
-/

/-- JavaScript `<` on strings compares code units lexicographically; this is
the executable embedding over the underlying character lists (a proper prefix
is smaller). -/
def lexLt : List Char → List Char → Bool
  | _, [] => false
  | [], _ :: _ => true
  | a :: as, b :: bs => a < b || (a == b && lexLt as bs)

/-- Executable prefix test on character lists, used to embed
`String.prototype.includes`. -/
def isPrefixOfChars : List Char → List Char → Bool
  | [], _ => true
  | _ :: _, [] => false
  | n :: ns, h :: hs => n == h && isPrefixOfChars ns hs

/-- Executable substring containment on character lists: JavaScript
`haystack.includes(needle)`. -/
def containsChars (needle : List Char) : List Char → Bool
  | [] => needle.isEmpty
  | h :: hs => isPrefixOfChars needle (h :: hs) || containsChars needle hs

/-- Embedding of the TypeScript `FetchHotspotsParams` type: `bbox` is
required, every other field optional (`Option`), with the `?? default`
fill-ins applied at use sites exactly as in the source. -/
structure FetchHotspotsParams where
  bbox : String
  cell_m : Option Nat := none
  recent_days : Option Nat := none
  baseline_days : Option Nat := none
  limit : Option Nat := none
  start : Option String := none
  «end» : Option String := none
  hour_start : Option Nat := none
  hour_end : Option Nat := none
  violation_type : Option String := none
deriving DecidableEq

/-- Embedding of `hotspotsCacheKey` (api.ts): the five always-present fields
(`bbox`, then `cell_m ?? 250`, `recent_days ?? 7`, `baseline_days ?? 30`,
`limit ?? 3000` via `String(...)`), then each optional field pushed only when
present (`!= null`) — a conditional `push` is the append of a singleton
segment when present and of the empty segment when absent — joined with
`'|'`. -/
def hotspotsCacheKey (params : FetchHotspotsParams) : String :=
  let k := [params.bbox,
    toString (params.cell_m.getD 250),
    toString (params.recent_days.getD 7),
    toString (params.baseline_days.getD 30),
    toString (params.limit.getD 3000)]
    ++ (match params.start with | some s => [s] | none => [])
    ++ (match params.«end» with | some s => [s] | none => [])
    ++ (match params.hour_start with | some n => [toString n] | none => [])
    ++ (match params.hour_end with | some n => [toString n] | none => [])
    ++ (match params.violation_type with | some s => [s] | none => [])
  String.intercalate "|" k

section KeyLemmas

lemma intercalate_go_append (x y s : String) :
    ∀ as : List String, String.intercalate.go (x ++ y) s as = x ++ String.intercalate.go y s as := by
  intro as
  induction as generalizing y with
  | nil => simp [String.intercalate.go]
  | cons a as ih =>
      simp only [String.intercalate.go]
      rw [String.append_assoc, String.append_assoc, ih, ← String.append_assoc y s a]

lemma intercalate_cons (s b : String) (as : List String) :
    String.intercalate s (b :: as) = b ++ String.intercalate.go "" s as := by
  simp only [String.intercalate]
  have h := intercalate_go_append b "" s as
  simpa using h

lemma string_append_right_cancel {s t u : String} (h : s ++ u = t ++ u) : s = t := by
  have hd : (s ++ u).data = (t ++ u).data := by rw [h]
  simp only [String.data_append] at hd
  exact String.ext (List.append_cancel_right hd)

end KeyLemmas

/-- Concrete parameter set carrying its filter in `start`, used to exhibit
the optional-field collision of the key derivation. -/
def paramsWithStart : FetchHotspotsParams := { bbox := "0,0,1,1", start := some "X" }

/-- Concrete parameter set carrying the same string in `end` instead,
semantically a different request. -/
def paramsWithEnd : FetchHotspotsParams := { bbox := "0,0,1,1", «end» := some "X" }

/-- Claim C1 (as stated) fails: the key has no explicit markers for absent
optional fields, so `start="X"` and `end="X"` produce the same key for
otherwise-identical requests that are not semantically identical. -/
theorem hotspotsCacheKey_not_injective :
    hotspotsCacheKey paramsWithStart = hotspotsCacheKey paramsWithEnd ∧
      paramsWithStart.start ≠ paramsWithEnd.start := by
  constructor
  · rfl
  · decide

/-- C1 (amended): the key derivation is well defined on request semantics —
two parameter sets that agree on `bbox`, on the default-filled numeric fields
and on each optional field (as `Option` values) produce the same cache key.
(The converse fails: absent optional fields are not marked, so requests
differing only in which optional field carries a value can collide.) -/
theorem hotspotsCacheKey_semantic_sound (p q : FetchHotspotsParams)
    (hbbox : p.bbox = q.bbox)
    (hcell : p.cell_m.getD 250 = q.cell_m.getD 250)
    (hrecent : p.recent_days.getD 7 = q.recent_days.getD 7)
    (hbase : p.baseline_days.getD 30 = q.baseline_days.getD 30)
    (hlimit : p.limit.getD 3000 = q.limit.getD 3000)
    (hstart : p.start = q.start)
    (hend : p.«end» = q.«end»)
    (hhs : p.hour_start = q.hour_start)
    (hhe : p.hour_end = q.hour_end)
    (hvt : p.violation_type = q.violation_type) :
    hotspotsCacheKey p = hotspotsCacheKey q := by
  unfold hotspotsCacheKey
  rw [hbbox, hcell, hrecent, hbase, hlimit, hstart, hend, hhs, hhe, hvt]

/-- Witness for C1's amended theorem: `cell_m = some 250` and `cell_m = none`
are semantically identical after default filling and get the same key. -/
theorem hotspotsCacheKey_semantic_sound_witness :
    hotspotsCacheKey { bbox := "b", cell_m := some 250 } =
      hotspotsCacheKey { bbox := "b" } :=
  hotspotsCacheKey_semantic_sound _ _ rfl rfl rfl rfl rfl rfl rfl rfl rfl rfl

/-- Claim C2 (as stated) fails: no 5-decimal normalization of bounding-box
coordinates happens anywhere in the key derivation — the `bbox` string enters
the key verbatim, so the spec's two example viewports get different keys. -/
theorem hotspotsCacheKey_rounding_counterexample :
    hotspotsCacheKey { bbox := "-74.10000001,40.6,-73.9,40.8" } ≠
      hotspotsCacheKey { bbox := "-74.1,40.6,-73.90000004,40.8" } := by
  decide

/-- C2 (amended): the `bbox` string is keyed verbatim, with no rounding; two
parameter sets that agree on every other field but whose `bbox` strings
differ anywhere (including past the fifth decimal digit) always produce
different cache keys. -/
theorem hotspotsCacheKey_bbox_verbatim (p q : FetchHotspotsParams)
    (hb : p.bbox ≠ q.bbox)
    (hcell : p.cell_m = q.cell_m) (hrecent : p.recent_days = q.recent_days)
    (hbase : p.baseline_days = q.baseline_days) (hlimit : p.limit = q.limit)
    (hstart : p.start = q.start) (hend : p.«end» = q.«end»)
    (hhs : p.hour_start = q.hour_start) (hhe : p.hour_end = q.hour_end)
    (hvt : p.violation_type = q.violation_type) :
    hotspotsCacheKey p ≠ hotspotsCacheKey q := by
  intro heq
  apply hb
  unfold hotspotsCacheKey at heq
  rw [hcell, hrecent, hbase, hlimit, hstart, hend, hhs, hhe, hvt] at heq
  simp only [List.cons_append] at heq
  rw [intercalate_cons, intercalate_cons] at heq
  exact string_append_right_cancel heq

/-- Witness for C2's amended theorem at the spec's own example bboxes. -/
theorem hotspotsCacheKey_bbox_verbatim_witness :
    hotspotsCacheKey { bbox := "-74.10000001,40.6,-73.9,40.8", cell_m := some 500 } ≠
      hotspotsCacheKey { bbox := "-74.1,40.6,-73.90000004,40.8", cell_m := some 500 } :=
  hotspotsCacheKey_bbox_verbatim _ _ (by decide) rfl rfl rfl rfl rfl rfl rfl rfl rfl

/-! ## The hotspots cache (api.ts)

The value type of the cache (`HotspotsGridResponse`) is irrelevant to the
cache mechanics, so the state is polymorphic in the payload `α`. A pending
`fetch` promise is identified by a promise id (`Nat`); "issuing a network
fetch" is the `missFetch` outcome carrying the id of the newly created
promise. `Date.now()` timestamps are `Nat` milliseconds. The JavaScript
`Map` is an association list in insertion order: `set` of an existing key
updates it in place, `set` of a fresh key appends, iteration preserves
order. -/

/-- Embedding of `HotspotsCacheEntry`: either a completed response with its
store time, or an in-flight promise (identified by id) with the miss time. -/
inductive HotspotsCacheEntry (α : Type) where
  | data (d : α) (ts : Nat)
  | inFlight (ts : Nat) (pid : Nat)
deriving DecidableEq

namespace HotspotsCacheEntry

/-- The `ts` field common to both variants of a cache entry. -/
def ts {α : Type} : HotspotsCacheEntry α → Nat
  | data _ t => t
  | inFlight t _ => t

/-- The JavaScript `'data' in v` test on an entry. -/
def isData {α : Type} : HotspotsCacheEntry α → Bool
  | data _ _ => true
  | inFlight _ _ => false

end HotspotsCacheEntry

/-- The `hotspotsCache` Map, as an insertion-ordered association list. -/
abbrev HotspotsCache (α : Type) := List (String × HotspotsCacheEntry α)

/-- JavaScript `Map.prototype.get`. -/
def mapGet {α : Type} (m : HotspotsCache α) (k : String) : Option (HotspotsCacheEntry α) :=
  (List.find? (fun p => p.1 == k) m).map Prod.snd

/-- JavaScript `Map.prototype.set`: update in place when the key exists
(keeping its position), append otherwise. -/
def mapSet {α : Type} (m : HotspotsCache α) (k : String) (v : HotspotsCacheEntry α) :
    HotspotsCache α :=
  if List.any m (fun p => p.1 == k) then
    List.map (fun p => if p.1 == k then (k, v) else p) m
  else m ++ [(k, v)]

/-- JavaScript `Map.prototype.delete`. -/
def mapDelete {α : Type} (m : HotspotsCache α) (k : String) : HotspotsCache α :=
  List.filter (fun p => !(p.1 == k)) m

/-- The `HOTSPOTS_CACHE_TTL_MS` constant (api.ts). -/
def HOTSPOTS_CACHE_TTL_MS : Nat := 3000

/-- The `HOTSPOTS_CACHE_MAX_ENTRIES` constant (api.ts). -/
def HOTSPOTS_CACHE_MAX_ENTRIES : Nat := 50

/-- The candidate list computed inside `pruneHotspotsCache`:
`[...hotspotsCache.entries()]` (insertion order), keeping entries other than
`excludeKey` that hold `data`, sorted ascending by `ts` (the JS comparator
`a[1].ts - b[1].ts`; `Array.prototype.sort` is a stable comparison sort,
embedded as the stable `insertionSort`). -/
def pruneCandidates {α : Type} (cache : HotspotsCache α) (excludeKey : String) :
    List (String × HotspotsCacheEntry α) :=
  List.insertionSort (fun a b => a.2.ts ≤ b.2.ts)
    (List.filter (fun p => !(p.1 == excludeKey) && p.2.isData) cache)

/-- Embedding of `pruneHotspotsCache` (api.ts): no-op below the max-entries
bound, otherwise delete `candidates[0]` when it exists. -/
def pruneHotspotsCache {α : Type} (cache : HotspotsCache α) (excludeKey : String) :
    HotspotsCache α :=
  if cache.length < HOTSPOTS_CACHE_MAX_ENTRIES then cache
  else
    match (pruneCandidates cache excludeKey).head? with
    | some victim => mapDelete cache victim.1
    | none => cache

/-- The observable outcome of one call to `fetchHotspotsGridCached`: a cache
hit returning stored data, deduplication onto an existing in-flight promise,
or a miss that issues a fresh network fetch (a new promise). -/
inductive FetchOutcome (α : Type) where
  | hit (d : α)
  | inFlightDedupe (pid : Nat)
  | missFetch (pid : Nat)
deriving DecidableEq

/-- The synchronous core of `fetchHotspotsGridCached` (api.ts) for a given
key: in-flight entries are returned as-is; a `data` entry younger than the
TTL is a hit; otherwise the cache is pruned, a fresh fetch is issued and an
in-flight entry is stored for the key. -/
def hotspotsCacheStep {α : Type} (cache : HotspotsCache α) (key : String)
    (now : Nat) (newPid : Nat) : FetchOutcome α × HotspotsCache α :=
  match mapGet cache key with
  | some (.inFlight _ pid) => (.inFlightDedupe pid, cache)
  | some (.data d ts) =>
      if now - ts < HOTSPOTS_CACHE_TTL_MS then (.hit d, cache)
      else
        let c := pruneHotspotsCache cache key
        (.missFetch newPid, mapSet c key (.inFlight now newPid))
  | none =>
      let c := pruneHotspotsCache cache key
      (.missFetch newPid, mapSet c key (.inFlight now newPid))

/-- Embedding of `fetchHotspotsGridCached` at the parameters level: the key
is derived by `hotspotsCacheKey`. -/
def fetchHotspotsGridCached {α : Type} (cache : HotspotsCache α)
    (params : FetchHotspotsParams) (now : Nat) (newPid : Nat) :
    FetchOutcome α × HotspotsCache α :=
  hotspotsCacheStep cache (hotspotsCacheKey params) now newPid

/-- The `.then` continuation of the fetch inside `fetchHotspotsGridCached`:
a successful response is stored for the key with `ts = Date.now()`. -/
def resolveFetchSuccess {α : Type} (cache : HotspotsCache α) (key : String)
    (d : α) (now : Nat) : HotspotsCache α :=
  mapSet cache key (.data d now)

/-- The `.catch` handler of the fetch inside `fetchHotspotsGridCached`: a
failed fetch deletes the key's entry; nothing is stored. -/
def resolveFetchFailure {α : Type} (cache : HotspotsCache α) (key : String) :
    HotspotsCache α :=
  mapDelete cache key

section MapLemmas

variable {α : Type}

lemma find?_map_update {k : String} {v : HotspotsCacheEntry α} :
    ∀ m : HotspotsCache α, List.any m (fun p => p.1 == k) = true →
      List.find? (fun p => p.1 == k)
        (List.map (fun p => if p.1 == k then (k, v) else p) m) = some (k, v) := by
  intro m
  induction m with
  | nil => intro h; simp at h
  | cons p m ih =>
      intro h
      rw [List.map_cons]
      by_cases hp : (p.1 == k) = true
      · rw [if_pos hp, List.find?_cons_of_pos (a := (k, v)) _ (by simp)]
      · rw [if_neg hp, List.find?_cons_of_neg (a := p) _ hp]
        apply ih
        rw [List.any_cons] at h
        simpa [hp] using h

lemma find?_append_fresh {k : String} {v : HotspotsCacheEntry α} :
    ∀ m : HotspotsCache α, List.any m (fun p => p.1 == k) = false →
      List.find? (fun p => p.1 == k) (m ++ [(k, v)]) = some (k, v) := by
  intro m
  induction m with
  | nil => intro _; simp [List.find?]
  | cons p m ih =>
      intro h
      rw [List.any_cons, Bool.or_eq_false_iff] at h
      rw [List.cons_append, List.find?_cons_of_neg (a := p) _ (by simp [h.1])]
      exact ih h.2

lemma mapGet_mapSet_self (m : HotspotsCache α) (k : String) (v : HotspotsCacheEntry α) :
    mapGet (mapSet m k v) k = some v := by
  unfold mapGet mapSet
  by_cases h : List.any m (fun p => p.1 == k)
  · rw [if_pos h, find?_map_update m h]; rfl
  · rw [if_neg h, find?_append_fresh m (Bool.eq_false_iff.mpr h)]; rfl

lemma mapGet_mapDelete_self (m : HotspotsCache α) (k : String) :
    mapGet (mapDelete m k) k = none := by
  unfold mapGet mapDelete
  rw [Option.map_eq_none', List.find?_eq_none]
  intro p hp
  have h2 := List.of_mem_filter hp
  simp only [Bool.not_eq_true'] at h2
  intro hcontra
  rw [h2] at hcontra
  exact Bool.false_ne_true hcontra

end MapLemmas

/-- Claim C4 (confirmed): lazy TTL expiry — a lookup for a key whose stored
data is at least `HOTSPOTS_CACHE_TTL_MS` old does not return the stored
data. It proceeds as a miss issuing a fresh fetch, and the expired entry is
overwritten by the new in-flight entry as a side effect of the lookup. -/
theorem hotspots_ttl_expiry {α : Type} (cache : HotspotsCache α)
    (params : FetchHotspotsParams) (d : α) (t0 t1 pid : Nat)
    (hentry : mapGet cache (hotspotsCacheKey params) = some (.data d t0))
    (hexpired : t0 + HOTSPOTS_CACHE_TTL_MS ≤ t1) :
    (fetchHotspotsGridCached cache params t1 pid).1 = .missFetch pid ∧
      mapGet (fetchHotspotsGridCached cache params t1 pid).2 (hotspotsCacheKey params) =
        some (.inFlight t1 pid) := by
  unfold fetchHotspotsGridCached hotspotsCacheStep
  rw [hentry]
  have hnot : ¬ (t1 - t0 < HOTSPOTS_CACHE_TTL_MS) := by
    simp only [HOTSPOTS_CACHE_TTL_MS] at hexpired ⊢
    omega
  dsimp only
  rw [if_neg hnot]
  exact ⟨rfl, mapGet_mapSet_self _ _ _⟩

/-- Witness for C4 at a concrete expired entry (stored at 0, queried at
exactly the TTL). -/
theorem hotspots_ttl_expiry_witness :
    (fetchHotspotsGridCached [(hotspotsCacheKey { bbox := "b" }, .data 7 0)]
        { bbox := "b" } 3000 1).1 = .missFetch 1 ∧
      mapGet (fetchHotspotsGridCached [(hotspotsCacheKey { bbox := "b" }, .data 7 0)]
          { bbox := "b" } 3000 1).2 (hotspotsCacheKey { bbox := "b" }) =
        some (.inFlight 3000 1) :=
  hotspots_ttl_expiry _ _ 7 0 3000 1 (by decide) (by decide)

/-- Claim C6 (confirmed): errors are never cached — after a failed fetch the
key's entry is deleted (nothing is stored for it), and the next call for the
same parameters proceeds as a miss issuing a fresh fetch. -/
theorem hotspots_errors_not_cached {α : Type} (cache : HotspotsCache α)
    (params : FetchHotspotsParams) (now pid : Nat) :
    mapGet (resolveFetchFailure cache (hotspotsCacheKey params)) (hotspotsCacheKey params) =
        none ∧
      (fetchHotspotsGridCached (resolveFetchFailure cache (hotspotsCacheKey params))
          params now pid).1 = .missFetch pid := by
  have hnone := mapGet_mapDelete_self cache (hotspotsCacheKey params)
  refine ⟨hnone, ?_⟩
  unfold fetchHotspotsGridCached hotspotsCacheStep
  rw [show mapGet (resolveFetchFailure cache (hotspotsCacheKey params))
        (hotspotsCacheKey params) = none from hnone]

/-- Claim C7 (confirmed): in-flight deduplication — a call for a key whose
entry holds an in-flight promise returns that same promise (`pid`), issues
no additional fetch (the outcome is not a miss) and leaves the cache
unchanged. -/
theorem hotspots_inflight_dedupe {α : Type} (cache : HotspotsCache α)
    (params : FetchHotspotsParams) (now newPid ts pid : Nat)
    (h : mapGet cache (hotspotsCacheKey params) = some (.inFlight ts pid)) :
    fetchHotspotsGridCached cache params now newPid = (.inFlightDedupe pid, cache) := by
  unfold fetchHotspotsGridCached hotspotsCacheStep
  rw [h]

/-- Witness for C7: two concrete callers for the same params both receive
promise 42 and the cache is untouched. -/
theorem hotspots_inflight_dedupe_witness :
    fetchHotspotsGridCached ([(hotspotsCacheKey { bbox := "b" }, .inFlight 5 42)] :
        HotspotsCache Nat) { bbox := "b" } 6 99 =
      (.inFlightDedupe 42, [(hotspotsCacheKey { bbox := "b" }, .inFlight 5 42)]) :=
  hotspots_inflight_dedupe _ _ 6 99 5 42 (by decide)

/-- Distinct viewport parameter sets indexed by `i`, for eviction scenarios. -/
def bboxParams (i : Nat) : FetchHotspotsParams := { bbox := "k" ++ toString i }

/-- A reachable cache state: 50 distinct keys fetched (miss) and resolved
(success) at times 0, 1, ..., 49, filling the cache to
`HOTSPOTS_CACHE_MAX_ENTRIES` completed entries. -/
def lruScenarioState : HotspotsCache Nat :=
  (List.range HOTSPOTS_CACHE_MAX_ENTRIES).foldl
    (fun c i =>
      resolveFetchSuccess (fetchHotspotsGridCached c (bboxParams i) i i).2
        (hotspotsCacheKey (bboxParams i)) i i)
    []

set_option maxRecDepth 40000 in
/-- Claim C3 (as stated) fails: reading the first-inserted key `k0` is a hit
that leaves the cache unchanged (`ts` is not refreshed on access), and the
next insert into the full cache evicts `k0` — the entry with the oldest
insertion time, which is also the most recently accessed one — while the
least-recently-used `k1` survives. Eviction follows insertion order, not
last access. -/
theorem lru_eviction_counterexample :
    fetchHotspotsGridCached lruScenarioState (bboxParams 0) 100 999 =
      (.hit 0, lruScenarioState) ∧
    mapGet (fetchHotspotsGridCached lruScenarioState (bboxParams 50) 200 1000).2
      (hotspotsCacheKey (bboxParams 0)) = none ∧
    mapGet (fetchHotspotsGridCached lruScenarioState (bboxParams 50) 200 1000).2
      (hotspotsCacheKey (bboxParams 1)) = some (.data 1 1) := by
  decide

/-- C3 (amended): a cache hit returns the stored data and leaves the cache
completely unchanged (access does not refresh `ts`), and when an insert into
a full cache must evict, the victim is a `data` entry (other than the
inserted key) with the oldest stored `ts` — the insertion/refresh time — not
the oldest last access. -/
theorem prune_victim_oldest_stored {α : Type} (cache : HotspotsCache α)
    (key : String) (v : String × HotspotsCacheEntry α)
    (hfull : ¬ cache.length < HOTSPOTS_CACHE_MAX_ENTRIES)
    (hv : (pruneCandidates cache key).head? = some v) :
    (∀ (c : HotspotsCache α) (p : FetchHotspotsParams) (d : α) (ts now pid : Nat),
        mapGet c (hotspotsCacheKey p) = some (.data d ts) →
        now - ts < HOTSPOTS_CACHE_TTL_MS →
        fetchHotspotsGridCached c p now pid = (.hit d, c)) ∧
    pruneHotspotsCache cache key = mapDelete cache v.1 ∧
    v ∈ cache ∧ v.2.isData = true ∧ (v.1 == key) = false ∧
    (∀ c ∈ cache, (c.1 == key) = false → c.2.isData = true → v.2.ts ≤ c.2.ts) := by
  have hmemSort : v ∈ pruneCandidates cache key := by
    rw [List.head?_eq_some_iff] at hv
    obtain ⟨ys, hys⟩ := hv
    rw [hys]; exact List.mem_cons_self _ _
  have hmemFilter : v ∈ List.filter (fun p => !(p.1 == key) && p.2.isData) cache := by
    have hperm := List.perm_insertionSort
      (fun a b : String × HotspotsCacheEntry α => a.2.ts ≤ b.2.ts)
      (List.filter (fun p => !(p.1 == key) && p.2.isData) cache)
    exact hperm.mem_iff.mp hmemSort
  have hprops := List.of_mem_filter hmemFilter
  rw [Bool.and_eq_true, Bool.not_eq_true'] at hprops
  refine ⟨?_, ?_, List.mem_of_mem_filter hmemFilter, hprops.2, hprops.1, ?_⟩
  · intro c p d ts now pid hentry hfresh
    unfold fetchHotspotsGridCached hotspotsCacheStep
    rw [hentry]
    dsimp only
    rw [if_pos hfresh]
  · unfold pruneHotspotsCache
    rw [if_neg hfull, hv]
  · intro c hc hckey hcdata
    have hcFilter : c ∈ List.filter (fun p => !(p.1 == key) && p.2.isData) cache :=
      List.mem_filter_of_mem hc (by rw [Bool.and_eq_true, Bool.not_eq_true']; exact ⟨hckey, hcdata⟩)
    have hcSort : c ∈ pruneCandidates cache key := by
      have hperm := List.perm_insertionSort
        (fun a b : String × HotspotsCacheEntry α => a.2.ts ≤ b.2.ts)
        (List.filter (fun p => !(p.1 == key) && p.2.isData) cache)
      exact hperm.mem_iff.mpr hcFilter
    haveI : IsTotal (String × HotspotsCacheEntry α) (fun a b => a.2.ts ≤ b.2.ts) :=
      ⟨fun a b => Nat.le_total a.2.ts b.2.ts⟩
    haveI : IsTrans (String × HotspotsCacheEntry α) (fun a b => a.2.ts ≤ b.2.ts) :=
      ⟨fun _ _ _ hab hbc => Nat.le_trans hab hbc⟩
    have hsorted : List.Sorted (fun a b => a.2.ts ≤ b.2.ts) (pruneCandidates cache key) :=
      List.sorted_insertionSort _ _
    rw [List.head?_eq_some_iff] at hv
    obtain ⟨ys, hys⟩ := hv
    rw [hys] at hsorted hcSort
    rcases List.mem_cons.mp hcSort with hcv | hcys
    · rw [hcv]
    · exact (List.sorted_cons.mp hsorted).1 c hcys

set_option maxRecDepth 40000 in
/-- Witness for C3's amended theorem at the 50-entry scenario state: the
eviction victim is the oldest-stored key `k0`, and a hit on `k1` leaves the
state unchanged. -/
theorem prune_victim_oldest_stored_witness :
    pruneHotspotsCache lruScenarioState (hotspotsCacheKey (bboxParams 50)) =
      mapDelete lruScenarioState (hotspotsCacheKey (bboxParams 0)) ∧
    fetchHotspotsGridCached lruScenarioState (bboxParams 1) 100 998 =
      (.hit 1, lruScenarioState) := by
  have h := prune_victim_oldest_stored lruScenarioState (hotspotsCacheKey (bboxParams 50))
    (hotspotsCacheKey (bboxParams 0), .data 0 0) (by decide) (by decide)
  exact ⟨h.2.1, h.1 lruScenarioState (bboxParams 1) 1 1 100 998 (by decide) (by decide)⟩

section SizeLemmas

variable {α : Type}

lemma length_mapSet (m : HotspotsCache α) (k : String) (v : HotspotsCacheEntry α) :
    (mapSet m k v).length =
      if List.any m (fun p => p.1 == k) = true then m.length else m.length + 1 := by
  unfold mapSet
  by_cases h : List.any m (fun p => p.1 == k) = true
  · rw [if_pos h, if_pos h, List.length_map]
  · rw [if_neg h, if_neg h, List.length_append]
    rfl

lemma mapGet_some_mem {m : HotspotsCache α} {k : String} {e : HotspotsCacheEntry α}
    (h : mapGet m k = some e) : ∃ p ∈ m, p.1 = k ∧ p.2 = e := by
  unfold mapGet at h
  cases hf : List.find? (fun p => p.1 == k) m with
  | none => rw [hf] at h; exact absurd h (by simp)
  | some p =>
      rw [hf, Option.map_some'] at h
      refine ⟨p, List.mem_of_find?_eq_some hf, ?_, Option.some.inj h⟩
      have := List.find?_some hf
      simpa using this

lemma pruneCandidates_head_props {cache : HotspotsCache α} {key : String}
    {v : String × HotspotsCacheEntry α}
    (hv : (pruneCandidates cache key).head? = some v) :
    v ∈ cache ∧ v.2.isData = true ∧ (v.1 == key) = false := by
  have hmemSort : v ∈ pruneCandidates cache key := by
    rw [List.head?_eq_some_iff] at hv
    obtain ⟨ys, hys⟩ := hv
    rw [hys]; exact List.mem_cons_self _ _
  have hmemFilter : v ∈ List.filter (fun p => !(p.1 == key) && p.2.isData) cache := by
    have hperm := List.perm_insertionSort
      (fun a b : String × HotspotsCacheEntry α => a.2.ts ≤ b.2.ts)
      (List.filter (fun p => !(p.1 == key) && p.2.isData) cache)
    exact hperm.mem_iff.mp hmemSort
  have hprops := List.of_mem_filter hmemFilter
  rw [Bool.and_eq_true, Bool.not_eq_true'] at hprops
  exact ⟨List.mem_of_mem_filter hmemFilter, hprops.2, hprops.1⟩

lemma length_prune_le (cache : HotspotsCache α) (key : String) :
    (pruneHotspotsCache cache key).length ≤ cache.length := by
  unfold pruneHotspotsCache
  split
  · exact Nat.le_refl _
  · split
    · exact List.length_filter_le _ _
    · exact Nat.le_refl _

lemma prune_subset (cache : HotspotsCache α) (key : String) :
    ∀ p ∈ pruneHotspotsCache cache key, p ∈ cache := by
  intro p hp
  unfold pruneHotspotsCache at hp
  split at hp
  · exact hp
  · split at hp
    · exact List.mem_of_mem_filter hp
    · exact hp

lemma any_key_prune (cache : HotspotsCache α) (key : String)
    (h : List.any cache (fun p => p.1 == key) = true) :
    List.any (pruneHotspotsCache cache key) (fun p => p.1 == key) = true := by
  unfold pruneHotspotsCache
  split
  · exact h
  · cases hh : (pruneCandidates cache key).head? with
    | none => exact h
    | some v =>
        obtain ⟨-, -, hvkey⟩ := pruneCandidates_head_props hh
        rw [List.any_eq_true] at h ⊢
        obtain ⟨p, hp, hpk⟩ := h
        refine ⟨p, ?_, hpk⟩
        have hpk' : p.1 = key := by simpa using hpk
        have hvk : v.1 ≠ key := by simpa using hvkey
        have hne : (p.1 == v.1) = false := by
          rw [hpk']
          exact beq_eq_false_iff_ne.mpr (fun hEq => hvk hEq.symm)
        exact List.mem_filter_of_mem hp (by rw [hne]; rfl)

lemma miss_length_le (cache : HotspotsCache α) (key : String) (v : HotspotsCacheEntry α)
    (hdata : ∀ p ∈ cache, p.2.isData = true)
    (hlen : cache.length ≤ HOTSPOTS_CACHE_MAX_ENTRIES) :
    (mapSet (pruneHotspotsCache cache key) key v).length ≤ HOTSPOTS_CACHE_MAX_ENTRIES := by
  by_cases hany : List.any cache (fun p => p.1 == key) = true
  · rw [length_mapSet, if_pos (any_key_prune cache key hany)]
    exact Nat.le_trans (length_prune_le cache key) hlen
  · have hallkeys : ∀ p ∈ cache, (p.1 == key) = false := by
      intro p hp
      by_contra hcon
      exact hany (List.any_eq_true.mpr ⟨p, hp, Bool.of_not_eq_false hcon⟩)
    have hanyc : ¬ List.any (pruneHotspotsCache cache key) (fun p => p.1 == key) = true := by
      intro hc
      rw [List.any_eq_true] at hc
      obtain ⟨p, hp, hpk⟩ := hc
      rw [hallkeys p (prune_subset cache key p hp)] at hpk
      exact Bool.false_ne_true hpk
    rw [length_mapSet, if_neg hanyc]
    by_cases hshort : cache.length < HOTSPOTS_CACHE_MAX_ENTRIES
    · have heq : pruneHotspotsCache cache key = cache := by
        unfold pruneHotspotsCache; rw [if_pos hshort]
      rw [heq]
      omega
    · have hfilter_all : List.filter (fun p => !(p.1 == key) && p.2.isData) cache = cache := by
        rw [List.filter_eq_self]
        intro p hp
        rw [Bool.and_eq_true, Bool.not_eq_true']
        exact ⟨hallkeys p hp, hdata p hp⟩
      have hne : pruneCandidates cache key ≠ [] := by
        unfold pruneCandidates
        rw [hfilter_all]
        intro hcon
        have hlencon := congrArg List.length hcon
        rw [List.length_insertionSort] at hlencon
        simp only [List.length_nil] at hlencon
        rw [hlencon] at hshort
        exact hshort (by simp [HOTSPOTS_CACHE_MAX_ENTRIES])
      obtain ⟨w, rest, hwr⟩ := List.exists_cons_of_ne_nil hne
      have hw : (pruneCandidates cache key).head? = some w := by rw [hwr]; rfl
      obtain ⟨hwmem, -, -⟩ := pruneCandidates_head_props hw
      have hprune_eq : pruneHotspotsCache cache key = mapDelete cache w.1 := by
        unfold pruneHotspotsCache
        rw [if_neg hshort, hw]
      have hdel_lt : (mapDelete cache w.1).length < cache.length := by
        unfold mapDelete
        exact List.length_filter_lt_length_iff_exists.mpr ⟨w, hwmem, by simp⟩
      rw [hprune_eq]
      omega

end SizeLemmas

/-- A reachable cache state violating the size bound: 51 distinct keys
requested concurrently (each a miss whose fetch has not yet resolved). The
prune step only ever evicts completed (`data`) entries, so none of the
in-flight entries can be evicted and the 51st miss pushes the size past
`HOTSPOTS_CACHE_MAX_ENTRIES`. -/
def inFlightFloodState : HotspotsCache Nat :=
  (List.range 51).foldl
    (fun c i => (fetchHotspotsGridCached c (bboxParams i) i i).2) []

set_option maxRecDepth 40000 in
/-- Claim C5 (as stated) fails: with 50 concurrent in-flight misses for
distinct keys, a 51st miss finds no evictable (`data`) candidate and inserts
anyway, so the reachable state holds 51 entries, exceeding
`HOTSPOTS_CACHE_MAX_ENTRIES = 50`. -/
theorem cache_size_bound_counterexample :
    inFlightFloodState.length = 51 ∧
      HOTSPOTS_CACHE_MAX_ENTRIES < inFlightFloodState.length := by
  decide

/-- C5 (amended): the bound does hold as long as every held entry is a
completed (`data`) entry — an insertion into a full all-data cache evicts a
completed entry first, so the size never exceeds
`HOTSPOTS_CACHE_MAX_ENTRIES`; only concurrent in-flight misses (whose
entries the prune step never evicts) can push the size past the maximum. -/
theorem cache_size_bounded_when_all_data {α : Type} (cache : HotspotsCache α)
    (params : FetchHotspotsParams) (now pid : Nat)
    (hdata : ∀ p ∈ cache, p.2.isData = true)
    (hlen : cache.length ≤ HOTSPOTS_CACHE_MAX_ENTRIES) :
    ((fetchHotspotsGridCached cache params now pid).2).length ≤
      HOTSPOTS_CACHE_MAX_ENTRIES := by
  unfold fetchHotspotsGridCached hotspotsCacheStep
  cases hget : mapGet cache (hotspotsCacheKey params) with
  | some e =>
      cases e with
      | inFlight ts pid' =>
          obtain ⟨p, hp, -, hpe⟩ := mapGet_some_mem hget
          have hd := hdata p hp
          rw [hpe] at hd
          exact absurd hd (by simp [HotspotsCacheEntry.isData])
      | data d ts =>
          dsimp only
          by_cases hf : now - ts < HOTSPOTS_CACHE_TTL_MS
          · rw [if_pos hf]
            exact hlen
          · rw [if_neg hf]
            exact miss_length_le cache (hotspotsCacheKey params) _ hdata hlen
  | none =>
      dsimp only
      exact miss_length_le cache (hotspotsCacheKey params) _ hdata hlen

set_option maxRecDepth 40000 in
/-- Witness for C5's amended theorem: a full all-data cache (the 50-entry
scenario state) stays at 50 entries across a fresh miss. -/
theorem cache_size_bounded_when_all_data_witness :
    ((fetchHotspotsGridCached lruScenarioState (bboxParams 50) 200 1000).2).length ≤
      HOTSPOTS_CACHE_MAX_ENTRIES :=
  cache_size_bounded_when_all_data lruScenarioState (bboxParams 50) 200 1000
    (by decide) (by decide)

/-! ## The hotspots retry loop (map page)

`fetchHotspotsWithRetry` attempts `fetchHotspotsGridCached` and, on an error
whose message contains `'429'`, schedules a retry after
`backoffMs[attempt] + jitter` while `attempt < maxAttempts - 1`; any other
failure is surfaced at once. A run is modelled by the outcome of each
attempt (`outcome i`) and the jitter drawn before the retry following
attempt `i` (`jitter i`; in the source `Math.floor(Math.random()*80)+20`,
hence a value in `[20, 99]`). -/

/-- The `maxAttempts` constant of the retry loop (map page). -/
def maxAttempts : Nat := 3

/-- The `backoffMs` table of the retry loop (map page). -/
def backoffMs : List Nat := [600, 1200, 2400]

/-- The `String(msg).includes('429')` test deciding whether a failure is
rate-limit-like. -/
def is429 (msg : String) : Bool := containsChars "429".data msg.data

/-- Outcome of one attempt as observed by the retry loop. -/
inductive AttemptOutcome where
  | success
  | failure (msg : String)

/-- Trace of a run of the retry loop: total attempts made, the delays
waited between attempts, and the surfaced error message (`none` when the
run ended in success). -/
structure RetryTrace where
  attemptsMade : Nat
  delays : List Nat
  result : Option String
deriving DecidableEq

/-- Embedding of `fetchHotspotsWithRetry` (map page): try attempt
`attempt`; on success stop; on failure wait `backoffMs[attempt] + jitter`
and recurse only when the message contains `'429'` and
`attempt < maxAttempts - 1`, otherwise surface the failure. -/
def fetchHotspotsWithRetry (outcome : Nat → AttemptOutcome) (jitter : Nat → Nat)
    (attempt : Nat) : RetryTrace :=
  match outcome attempt with
  | .success => ⟨attempt + 1, [], none⟩
  | .failure msg =>
      if h : is429 msg = true ∧ attempt < maxAttempts - 1 then
        let rest := fetchHotspotsWithRetry outcome jitter (attempt + 1)
        ⟨rest.attemptsMade, (backoffMs.getD attempt 0 + jitter attempt) :: rest.delays,
          rest.result⟩
      else ⟨attempt + 1, [], some msg⟩
termination_by maxAttempts - attempt
decreasing_by
  simp only [maxAttempts] at h ⊢
  omega

section RetryLemmas

lemma retry_succ_eq (o : Nat → AttemptOutcome) (j : Nat → Nat) (a : Nat)
    (h : o a = .success) :
    fetchHotspotsWithRetry o j a = ⟨a + 1, [], none⟩ := by
  unfold fetchHotspotsWithRetry
  rw [h]

lemma retry_fail_stop (o : Nat → AttemptOutcome) (j : Nat → Nat) (a : Nat) (msg : String)
    (h : o a = .failure msg) (hc : ¬ (is429 msg = true ∧ a < maxAttempts - 1)) :
    fetchHotspotsWithRetry o j a = ⟨a + 1, [], some msg⟩ := by
  unfold fetchHotspotsWithRetry
  rw [h]
  simp [hc]

lemma retry_fail_retry (o : Nat → AttemptOutcome) (j : Nat → Nat) (a : Nat) (msg : String)
    (h : o a = .failure msg) (h429 : is429 msg = true) (ha : a < maxAttempts - 1) :
    fetchHotspotsWithRetry o j a =
      ⟨(fetchHotspotsWithRetry o j (a + 1)).attemptsMade,
        (backoffMs.getD a 0 + j a) :: (fetchHotspotsWithRetry o j (a + 1)).delays,
        (fetchHotspotsWithRetry o j (a + 1)).result⟩ := by
  conv_lhs => unfold fetchHotspotsWithRetry
  rw [h]
  simp [h429, ha]

end RetryLemmas


/-- Claim C8 (as stated) fails on its delay schedule: the maximal run — 429
failures on all three attempts — waits only twice, 600+jitter then
1200+jitter; the 2400 ms entry of `backoffMs` is never used, because a
third wait would require a fourth attempt and retries stop at
`attempt < maxAttempts - 1`. -/
theorem retry_backoff_counterexample :
    fetchHotspotsWithRetry (fun _ => .failure "Hotspots: HTTP 429") (fun _ => 20) 0 =
      ⟨3, [620, 1220], some "Hotspots: HTTP 429"⟩ ∧
    ∀ d ∈ (fetchHotspotsWithRetry (fun _ => .failure "Hotspots: HTTP 429")
        (fun _ => 20) 0).delays, d < 2400 := by
  have h429 : is429 "Hotspots: HTTP 429" = true := rfl
  have e2 := retry_fail_stop (fun _ => .failure "Hotspots: HTTP 429") (fun _ => 20) 2
    "Hotspots: HTTP 429" rfl (fun hc => absurd hc.2 (by decide))
  have e1 := retry_fail_retry (fun _ => .failure "Hotspots: HTTP 429") (fun _ => 20) 1
    "Hotspots: HTTP 429" rfl h429 (by decide)
  have e0 := retry_fail_retry (fun _ => .failure "Hotspots: HTTP 429") (fun _ => 20) 0
    "Hotspots: HTTP 429" rfl h429 (by decide)
  have ht : fetchHotspotsWithRetry (fun _ => .failure "Hotspots: HTTP 429") (fun _ => 20) 0 =
      ⟨3, [620, 1220], some "Hotspots: HTTP 429"⟩ := by
    rw [e0, e1, e2]
    rfl
  rw [ht]
  exact ⟨rfl, by decide⟩

/-- C8 (amended): at most `maxAttempts = 3` attempts are made; the waits are
exactly `600 + jitter` before the second attempt and `1200 + jitter` before
the third (jitter in `[20, 99]`; the 2400 entry is never reached); a failure
whose message does not contain `'429'` ends the run immediately with no
further attempt and no wait; and after a third 429 failure no further
attempt is made — the run stops at 3 attempts surfacing that failure. -/
theorem retry_only_on_429 (outcome : Nat → AttemptOutcome) (jitter : Nat → Nat)
    (hj : ∀ i, 20 ≤ jitter i ∧ jitter i ≤ 99) :
    (fetchHotspotsWithRetry outcome jitter 0).attemptsMade ≤ maxAttempts ∧
    (fetchHotspotsWithRetry outcome jitter 0).delays =
      (List.range ((fetchHotspotsWithRetry outcome jitter 0).attemptsMade - 1)).map
        (fun i => backoffMs.getD i 0 + jitter i) ∧
    (∀ d ∈ (fetchHotspotsWithRetry outcome jitter 0).delays,
      (620 ≤ d ∧ d ≤ 699) ∨ (1220 ≤ d ∧ d ≤ 1299)) ∧
    (∀ i msg, outcome i = .failure msg → is429 msg = false →
      (∀ j < i, ∃ m, outcome j = .failure m ∧ is429 m = true) → i < maxAttempts →
      fetchHotspotsWithRetry outcome jitter 0 =
        ⟨i + 1, (List.range i).map (fun j => backoffMs.getD j 0 + jitter j), some msg⟩) ∧
    (∀ msg0 msg1 msg2, outcome 0 = .failure msg0 → is429 msg0 = true →
      outcome 1 = .failure msg1 → is429 msg1 = true → outcome 2 = .failure msg2 →
      (fetchHotspotsWithRetry outcome jitter 0).attemptsMade = 3 ∧
        (fetchHotspotsWithRetry outcome jitter 0).result = some msg2) := by
  have hcases : ∀ n : Nat, outcome n = .success ∨ ∃ m, outcome n = .failure m := by
    intro n
    cases hn : outcome n
    · exact Or.inl rfl
    · exact Or.inr ⟨_, rfl⟩
  rcases hcases 0 with h0 | ⟨msg0, h0⟩
  · have ht : fetchHotspotsWithRetry outcome jitter 0 = ⟨1, [], none⟩ :=
      retry_succ_eq outcome jitter 0 h0
    rw [ht]
    refine ⟨by show 1 ≤ maxAttempts; decide, rfl, ?_, ?_, ?_⟩
    · intro d hd; exact absurd hd (List.not_mem_nil d)
    · intro i msg hfail _ hall _
      rcases Nat.eq_zero_or_pos i with hz | hpos
      · subst hz; rw [h0] at hfail; exact AttemptOutcome.noConfusion hfail
      · obtain ⟨m, hm, -⟩ := hall 0 hpos
        rw [h0] at hm; exact AttemptOutcome.noConfusion hm
    · intro m0 m1 m2 hf0 _ _ _ _
      rw [h0] at hf0; exact AttemptOutcome.noConfusion hf0
  · by_cases h4290 : is429 msg0 = true
    · have e0 := retry_fail_retry outcome jitter 0 msg0 h0 h4290 (by decide)
      rcases hcases 1 with h1 | ⟨msg1, h1⟩
      · have e1 := retry_succ_eq outcome jitter 1 h1
        have ht : fetchHotspotsWithRetry outcome jitter 0 =
            ⟨2, [600 + jitter 0], none⟩ := by
          rw [e0, e1]
          rfl
        rw [ht]
        refine ⟨by show 2 ≤ maxAttempts; decide, rfl, ?_, ?_, ?_⟩
        · intro d hd
          rcases List.mem_cons.mp hd with hd0 | hd1
          · have hb := hj 0
            left
            omega
          · exact absurd hd1 (List.not_mem_nil d)
        · intro i msg hfail h429f hall hi
          have hi3 : i < 3 := by simpa [maxAttempts] using hi
          interval_cases i
          · rw [h0] at hfail
            cases hfail
            rw [h4290] at h429f
            exact Bool.noConfusion h429f
          · rw [h1] at hfail
            exact AttemptOutcome.noConfusion hfail
          · obtain ⟨m, hm, -⟩ := hall 1 (by omega)
            rw [h1] at hm
            exact AttemptOutcome.noConfusion hm
        · intro m0 m1 m2 _ _ hf1 _ _
          rw [h1] at hf1
          exact AttemptOutcome.noConfusion hf1
      · by_cases h4291 : is429 msg1 = true
        · have e1 := retry_fail_retry outcome jitter 1 msg1 h1 h4291 (by decide)
          rcases hcases 2 with h2 | ⟨msg2, h2⟩
          · have e2 := retry_succ_eq outcome jitter 2 h2
            have ht : fetchHotspotsWithRetry outcome jitter 0 =
                ⟨3, [600 + jitter 0, 1200 + jitter 1], none⟩ := by
              rw [e0, e1, e2]
              rfl
            rw [ht]
            refine ⟨by show 3 ≤ maxAttempts; decide, rfl, ?_, ?_, ?_⟩
            · intro d hd
              rcases List.mem_cons.mp hd with hd0 | hd1
              · have hb := hj 0
                left; omega
              · rcases List.mem_cons.mp hd1 with hd2 | hd3
                · have hb := hj 1
                  right; omega
                · exact absurd hd3 (List.not_mem_nil d)
            · intro i msg hfail h429f hall hi
              have hi3 : i < 3 := by simpa [maxAttempts] using hi
              interval_cases i
              · rw [h0] at hfail
                cases hfail
                rw [h4290] at h429f
                exact Bool.noConfusion h429f
              · rw [h1] at hfail
                cases hfail
                rw [h4291] at h429f
                exact Bool.noConfusion h429f
              · rw [h2] at hfail
                exact AttemptOutcome.noConfusion hfail
            · intro m0 m1 m2 _ _ _ _ hf2
              rw [h2] at hf2
              exact AttemptOutcome.noConfusion hf2
          · have e2 := retry_fail_stop outcome jitter 2 msg2 h2
              (fun hc => absurd hc.2 (by decide))
            have ht : fetchHotspotsWithRetry outcome jitter 0 =
                ⟨3, [600 + jitter 0, 1200 + jitter 1], some msg2⟩ := by
              rw [e0, e1, e2]
              rfl
            rw [ht]
            refine ⟨by show 3 ≤ maxAttempts; decide, rfl, ?_, ?_, ?_⟩
            · intro d hd
              rcases List.mem_cons.mp hd with hd0 | hd1
              · have hb := hj 0
                left; omega
              · rcases List.mem_cons.mp hd1 with hd2 | hd3
                · have hb := hj 1
                  right; omega
                · exact absurd hd3 (List.not_mem_nil d)
            · intro i msg hfail h429f hall hi
              have hi3 : i < 3 := by simpa [maxAttempts] using hi
              interval_cases i
              · rw [h0] at hfail
                cases hfail
                rw [h4290] at h429f
                exact Bool.noConfusion h429f
              · rw [h1] at hfail
                cases hfail
                rw [h4291] at h429f
                exact Bool.noConfusion h429f
              · rw [h2] at hfail
                cases hfail
                rfl
            · intro m0 m1 m2 _ _ _ _ hf2
              rw [h2] at hf2
              cases hf2
              exact ⟨rfl, rfl⟩
        · have e1 := retry_fail_stop outcome jitter 1 msg1 h1 (fun hc => h4291 hc.1)
          have ht : fetchHotspotsWithRetry outcome jitter 0 =
              ⟨2, [600 + jitter 0], some msg1⟩ := by
            rw [e0, e1]
            rfl
          rw [ht]
          refine ⟨by show 2 ≤ maxAttempts; decide, rfl, ?_, ?_, ?_⟩
          · intro d hd
            rcases List.mem_cons.mp hd with hd0 | hd1
            · have hb := hj 0
              left; omega
            · exact absurd hd1 (List.not_mem_nil d)
          · intro i msg hfail h429f hall hi
            have hi3 : i < 3 := by simpa [maxAttempts] using hi
            interval_cases i
            · rw [h0] at hfail
              cases hfail
              rw [h4290] at h429f
              exact Bool.noConfusion h429f
            · rw [h1] at hfail
              cases hfail
              rfl
            · obtain ⟨m, hm, hm429⟩ := hall 1 (by omega)
              rw [h1] at hm
              cases hm
              exact absurd hm429 h4291
          · intro m0 m1 m2 _ _ hf1 h429f1 _
            rw [h1] at hf1
            cases hf1
            exact absurd h429f1 h4291
    · have ht : fetchHotspotsWithRetry outcome jitter 0 = ⟨1, [], some msg0⟩ :=
        retry_fail_stop outcome jitter 0 msg0 h0 (fun hc => h4290 hc.1)
      rw [ht]
      refine ⟨by show 1 ≤ maxAttempts; decide, rfl, ?_, ?_, ?_⟩
      · intro d hd; exact absurd hd (List.not_mem_nil d)
      · intro i msg hfail h429f hall hi
        have hi3 : i < 3 := by simpa [maxAttempts] using hi
        interval_cases i
        · rw [h0] at hfail
          cases hfail
          rfl
        · obtain ⟨m, hm, hm429⟩ := hall 0 (by omega)
          rw [h0] at hm
          cases hm
          exact absurd hm429 h4290
        · obtain ⟨m, hm, hm429⟩ := hall 0 (by omega)
          rw [h0] at hm
          cases hm
          exact absurd hm429 h4290
      · intro m0 m1 m2 hf0 h429f0 _ _ _
        rw [h0] at hf0
        cases hf0
        exact absurd h429f0 h4290

/-- Witness for C8's amended theorem: a non-429 failure (HTTP 503) on the
first attempt is surfaced immediately, with one attempt and no waits. -/
theorem retry_only_on_429_witness :
    fetchHotspotsWithRetry (fun _ => .failure "Hotspots: HTTP 503") (fun _ => 20) 0 =
      ⟨1, [], some "Hotspots: HTTP 503"⟩ := by
  have h := retry_only_on_429 (fun _ => .failure "Hotspots: HTTP 503") (fun _ => 20)
    (fun _ => ⟨Nat.le_refl 20, by show (20 : Nat) ≤ 99; omega⟩)
  exact h.2.2.2.1 0 "Hotspots: HTTP 503" rfl rfl
    (fun j hjlt => absurd hjlt (Nat.not_lt_zero j)) (by decide)

section LexLtLemmas

lemma lexLt_trans : ∀ a b c : List Char,
    lexLt a b = true → lexLt b c = true → lexLt a c = true := by
  intro a
  induction a with
  | nil =>
      intro b c hab hbc
      cases b with
      | nil => exact absurd hab (by simp [lexLt])
      | cons y ys =>
          cases c with
          | nil => exact absurd hbc (by simp [lexLt])
          | cons z zs => rfl
  | cons x xs ih =>
      intro b c hab hbc
      cases b with
      | nil => exact absurd hab (by simp [lexLt])
      | cons y ys =>
          cases c with
          | nil => exact absurd hbc (by simp [lexLt])
          | cons z zs =>
              have hab' : x < y ∨ (x = y ∧ lexLt xs ys = true) := by
                simpa [lexLt, Bool.or_eq_true, Bool.and_eq_true, decide_eq_true_eq,
                  beq_iff_eq] using hab
              have hbc' : y < z ∨ (y = z ∧ lexLt ys zs = true) := by
                simpa [lexLt, Bool.or_eq_true, Bool.and_eq_true, decide_eq_true_eq,
                  beq_iff_eq] using hbc
              have hgoal : x < z ∨ (x = z ∧ lexLt xs zs = true) := by
                rcases hab' with h1 | ⟨h1, h1r⟩ <;> rcases hbc' with h2 | ⟨h2, h2r⟩
                · exact Or.inl (lt_trans h1 h2)
                · exact Or.inl (h2 ▸ h1)
                · exact Or.inl (h1 ▸ h2)
                · exact Or.inr ⟨h1.trans h2, ih ys zs h1r h2r⟩
              simpa [lexLt, Bool.or_eq_true, Bool.and_eq_true, decide_eq_true_eq,
                beq_iff_eq] using hgoal

lemma lexLt_false_trans : ∀ a b c : List Char,
    lexLt a b = false → lexLt b c = false → lexLt a c = false := by
  intro a
  induction a with
  | nil =>
      intro b c hab hbc
      cases b with
      | nil =>
          cases c with
          | nil => rfl
          | cons z zs => exact absurd hbc (by simp [lexLt])
      | cons y ys => exact absurd hab (by simp [lexLt])
  | cons x xs ih =>
      intro b c hab hbc
      cases c with
      | nil => rfl
      | cons z zs =>
          cases b with
          | nil => exact absurd hbc (by simp [lexLt])
          | cons y ys =>
              have hab' : y ≤ x ∧ (x = y → lexLt xs ys = false) := by
                simpa [lexLt, Bool.or_eq_false_iff, Bool.and_eq_false_iff,
                  decide_eq_false_iff_not, beq_eq_false_iff_ne] using hab
              have hbc' : z ≤ y ∧ (y = z → lexLt ys zs = false) := by
                simpa [lexLt, Bool.or_eq_false_iff, Bool.and_eq_false_iff,
                  decide_eq_false_iff_not, beq_eq_false_iff_ne] using hbc
              have hyx : y ≤ x := hab'.1
              have hzy : z ≤ y := hbc'.1
              have hgoal : z ≤ x ∧ (x = z → lexLt xs zs = false) := by
                refine ⟨le_trans hzy hyx, fun hxz => ?_⟩
                have hxy : x = y := le_antisymm (by rw [hxz]; exact hzy) hyx
                have hyz : y = z := le_antisymm (by rw [← hxz]; exact hyx) hzy
                exact ih ys zs (hab'.2 hxy) (hbc'.2 hyz)
              simpa [lexLt, Bool.or_eq_false_iff, Bool.and_eq_false_iff,
                decide_eq_false_iff_not, beq_eq_false_iff_ne] using hgoal

lemma lexLt_irrefl : ∀ a : List Char, lexLt a a = false := by
  intro a
  induction a with
  | nil => rfl
  | cons x xs ih => simp [lexLt, ih, lt_irrefl]

end LexLtLemmas

/-- An hour aggregation bucket (map page). -/
structure HourBucket where
  hour : Nat
  count : Nat
deriving DecidableEq

/-- A day aggregation bucket (map page); `day` is an ISO date string,
compared by JavaScript `<` (code-unit lexicographic, embedded as `lexLt` on
the underlying character lists). -/
structure DayBucket where
  day : String
  count : Nat
deriving DecidableEq

/-- Embedding of `busiestHour` (map page): `null` on an empty list,
otherwise `reduce` keeping the incumbent unless the candidate has a
strictly larger count, or an equal count and a strictly smaller hour. -/
def busiestHour : List HourBucket → Option HourBucket
  | [] => none
  | b :: bs =>
      some (bs.foldl
        (fun best x =>
          if x.count > best.count ∨ (x.count = best.count ∧ x.hour < best.hour) then x
          else best) b)

/-- Embedding of `busiestDay` (map page), with the tie broken towards the
lexicographically smaller day string. -/
def busiestDay : List DayBucket → Option DayBucket
  | [] => none
  | b :: bs =>
      some (bs.foldl
        (fun best x =>
          if x.count > best.count ∨
              (x.count = best.count ∧ lexLt x.day.data best.day.data = true) then x
          else best) b)

section BusiestLemmas

lemma busiestHour_fold_spec (bs : List HourBucket) :
    ∀ acc : HourBucket,
      ((bs.foldl (fun best x =>
          if x.count > best.count ∨ (x.count = best.count ∧ x.hour < best.hour) then x
          else best) acc) = acc ∨
        (bs.foldl (fun best x =>
          if x.count > best.count ∨ (x.count = best.count ∧ x.hour < best.hour) then x
          else best) acc) ∈ bs) ∧
      acc.count ≤ (bs.foldl (fun best x =>
          if x.count > best.count ∨ (x.count = best.count ∧ x.hour < best.hour) then x
          else best) acc).count ∧
      (∀ y ∈ bs, y.count ≤ (bs.foldl (fun best x =>
          if x.count > best.count ∨ (x.count = best.count ∧ x.hour < best.hour) then x
          else best) acc).count) ∧
      (acc.count = (bs.foldl (fun best x =>
          if x.count > best.count ∨ (x.count = best.count ∧ x.hour < best.hour) then x
          else best) acc).count →
        (bs.foldl (fun best x =>
          if x.count > best.count ∨ (x.count = best.count ∧ x.hour < best.hour) then x
          else best) acc).hour ≤ acc.hour) ∧
      (∀ y ∈ bs, y.count = (bs.foldl (fun best x =>
          if x.count > best.count ∨ (x.count = best.count ∧ x.hour < best.hour) then x
          else best) acc).count →
        (bs.foldl (fun best x =>
          if x.count > best.count ∨ (x.count = best.count ∧ x.hour < best.hour) then x
          else best) acc).hour ≤ y.hour) := by
  induction bs with
  | nil =>
      intro acc
      refine ⟨Or.inl rfl, Nat.le_refl _, ?_, fun _ => Nat.le_refl _, ?_⟩
      · intro y hy; exact absurd hy (List.not_mem_nil y)
      · intro y hy; exact absurd hy (List.not_mem_nil y)
  | cons b bs ih =>
      intro acc
      simp only [List.foldl_cons]
      by_cases hcond : b.count > acc.count ∨ (b.count = acc.count ∧ b.hour < acc.hour)
      · rw [if_pos hcond]
        obtain ⟨ihmem, ihacc, ihall, ihtie, ihtieall⟩ := ih b
        refine ⟨?_, ?_, ?_, ?_, ?_⟩
        · rcases ihmem with h | h
          · exact Or.inr (by rw [h]; exact List.mem_cons_self b bs)
          · exact Or.inr (List.mem_cons_of_mem b h)
        · rcases hcond with h | ⟨h, -⟩ <;> omega
        · intro y hy
          rcases List.mem_cons.mp hy with rfl | hmem
          · exact ihacc
          · exact ihall y hmem
        · intro heq
          have hble : b.count ≤ _ := ihacc
          rcases hcond with h | ⟨h, hh⟩
          · omega
          · have := ihtie (by omega)
            omega
        · intro y hy
          rcases List.mem_cons.mp hy with rfl | hmem
          · exact fun h => ihtie h
          · exact ihtieall y hmem
      · rw [if_neg hcond]
        obtain ⟨ihmem, ihacc, ihall, ihtie, ihtieall⟩ := ih acc
        push_neg at hcond
        refine ⟨?_, ihacc, ?_, ihtie, ?_⟩
        · rcases ihmem with h | h
          · exact Or.inl h
          · exact Or.inr (List.mem_cons_of_mem b h)
        · intro y hy
          rcases List.mem_cons.mp hy with rfl | hmem
          · exact Nat.le_trans hcond.1 ihacc
          · exact ihall y hmem
        · intro y hy
          rcases List.mem_cons.mp hy with rfl | hmem
          · intro hyr
            have h1 : y.count = acc.count := by
              have := hcond.1
              omega
            have h2 : acc.hour ≤ y.hour := hcond.2 h1
            have h3 := ihtie (by omega)
            omega
          · exact ihtieall y hmem

end BusiestLemmas

section BusiestDayLemmas

lemma busiestDay_fold_spec (bs : List DayBucket) :
    ∀ acc : DayBucket,
      ((bs.foldl (fun best x =>
          if x.count > best.count ∨
              (x.count = best.count ∧ lexLt x.day.data best.day.data = true) then x
          else best) acc) = acc ∨
        (bs.foldl (fun best x =>
          if x.count > best.count ∨
              (x.count = best.count ∧ lexLt x.day.data best.day.data = true) then x
          else best) acc) ∈ bs) ∧
      acc.count ≤ (bs.foldl (fun best x =>
          if x.count > best.count ∨
              (x.count = best.count ∧ lexLt x.day.data best.day.data = true) then x
          else best) acc).count ∧
      (∀ y ∈ bs, y.count ≤ (bs.foldl (fun best x =>
          if x.count > best.count ∨
              (x.count = best.count ∧ lexLt x.day.data best.day.data = true) then x
          else best) acc).count) ∧
      (acc.count = (bs.foldl (fun best x =>
          if x.count > best.count ∨
              (x.count = best.count ∧ lexLt x.day.data best.day.data = true) then x
          else best) acc).count →
        lexLt acc.day.data (bs.foldl (fun best x =>
          if x.count > best.count ∨
              (x.count = best.count ∧ lexLt x.day.data best.day.data = true) then x
          else best) acc).day.data = false) ∧
      (∀ y ∈ bs, y.count = (bs.foldl (fun best x =>
          if x.count > best.count ∨
              (x.count = best.count ∧ lexLt x.day.data best.day.data = true) then x
          else best) acc).count →
        lexLt y.day.data (bs.foldl (fun best x =>
          if x.count > best.count ∨
              (x.count = best.count ∧ lexLt x.day.data best.day.data = true) then x
          else best) acc).day.data = false) := by
  induction bs with
  | nil =>
      intro acc
      refine ⟨Or.inl rfl, Nat.le_refl _, ?_, fun _ => lexLt_irrefl acc.day.data, ?_⟩
      · intro y hy; exact absurd hy (List.not_mem_nil y)
      · intro y hy; exact absurd hy (List.not_mem_nil y)
  | cons b bs ih =>
      intro acc
      simp only [List.foldl_cons]
      by_cases hcond : b.count > acc.count ∨
          (b.count = acc.count ∧ lexLt b.day.data acc.day.data = true)
      · rw [if_pos hcond]
        obtain ⟨ihmem, ihacc, ihall, ihtie, ihtieall⟩ := ih b
        refine ⟨?_, ?_, ?_, ?_, ?_⟩
        · rcases ihmem with h | h
          · exact Or.inr (by rw [h]; exact List.mem_cons_self b bs)
          · exact Or.inr (List.mem_cons_of_mem b h)
        · rcases hcond with h | ⟨h, -⟩ <;> omega
        · intro y hy
          rcases List.mem_cons.mp hy with rfl | hmem
          · exact ihacc
          · exact ihall y hmem
        · intro heq
          rcases hcond with h | ⟨h, hlt⟩
          · omega
          · have hbr : lexLt b.day.data _ = false := ihtie (by omega)
            cases hL : lexLt acc.day.data (List.foldl _ b bs).day.data with
            | false => rfl
            | true =>
                have := lexLt_trans _ _ _ hlt hL
                rw [this] at hbr
                exact Bool.noConfusion hbr
        · intro y hy
          rcases List.mem_cons.mp hy with rfl | hmem
          · exact fun h => ihtie h
          · exact ihtieall y hmem
      · rw [if_neg hcond]
        obtain ⟨ihmem, ihacc, ihall, ihtie, ihtieall⟩ := ih acc
        push_neg at hcond
        refine ⟨?_, ihacc, ?_, ihtie, ?_⟩
        · rcases ihmem with h | h
          · exact Or.inl h
          · exact Or.inr (List.mem_cons_of_mem b h)
        · intro y hy
          rcases List.mem_cons.mp hy with rfl | hmem
          · exact Nat.le_trans hcond.1 ihacc
          · exact ihall y hmem
        · intro y hy
          rcases List.mem_cons.mp hy with rfl | hmem
          · intro hyr
            have h1 : y.count = acc.count := by
              have := hcond.1
              omega
            have h2 : lexLt y.day.data acc.day.data = false := by
              have := hcond.2 h1
              cases hL : lexLt y.day.data acc.day.data with
              | false => rfl
              | true => exact absurd hL this
            have h3 := ihtie (by omega)
            exact lexLt_false_trans _ _ _ h2 h3
          · exact ihtieall y hmem

end BusiestDayLemmas

/-- Claim C9 (confirmed): `busiestHour` returns `none` exactly on the empty
list, and on a non-empty list it returns a member bucket of maximal count,
with the smallest hour among buckets of that maximal count; `busiestDay`
analogously returns the lexicographically smallest day among ties. -/
theorem busiest_correct (lh : List HourBucket) (rh : HourBucket)
    (ld : List DayBucket) (rd : DayBucket)
    (hh : busiestHour lh = some rh) (hd : busiestDay ld = some rd) :
    (∀ l : List HourBucket, busiestHour l = none ↔ l = []) ∧
    (∀ l : List DayBucket, busiestDay l = none ↔ l = []) ∧
    rh ∈ lh ∧
    (∀ x ∈ lh, x.count ≤ rh.count ∧ (x.count = rh.count → rh.hour ≤ x.hour)) ∧
    rd ∈ ld ∧
    (∀ x ∈ ld, x.count ≤ rd.count ∧
      (x.count = rd.count → lexLt x.day.data rd.day.data = false)) := by
  refine ⟨?_, ?_, ?_⟩
  · intro l
    cases l with
    | nil => simp [busiestHour]
    | cons b bs => simp [busiestHour]
  · intro l
    cases l with
    | nil => simp [busiestDay]
    | cons b bs => simp [busiestDay]
  · cases lh with
    | nil => exact absurd hh (by simp [busiestHour])
    | cons b bs =>
        have hrh : rh = bs.foldl (fun best x =>
            if x.count > best.count ∨ (x.count = best.count ∧ x.hour < best.hour) then x
            else best) b := by
          have := hh
          simp only [busiestHour] at this
          exact (Option.some.inj this).symm
        obtain ⟨hmem, hacc, hall, htie, htieall⟩ := busiestHour_fold_spec bs b
        cases ld with
        | nil => exact absurd hd (by simp [busiestDay])
        | cons c cs =>
            have hrd : rd = cs.foldl (fun best x =>
                if x.count > best.count ∨
                    (x.count = best.count ∧ lexLt x.day.data best.day.data = true) then x
                else best) c := by
              have := hd
              simp only [busiestDay] at this
              exact (Option.some.inj this).symm
            obtain ⟨hmem', hacc', hall', htie', htieall'⟩ := busiestDay_fold_spec cs c
            refine ⟨?_, ?_, ?_, ?_⟩
            · rw [hrh]
              rcases hmem with h | h
              · rw [h]; exact List.mem_cons_self b bs
              · exact List.mem_cons_of_mem b h
            · intro x hx
              rcases List.mem_cons.mp hx with rfl | hxm
              · exact ⟨by rw [hrh]; exact hacc, by rw [hrh]; intro h; exact htie h⟩
              · exact ⟨by rw [hrh]; exact hall x hxm,
                  by rw [hrh]; intro h; exact htieall x hxm h⟩
            · rw [hrd]
              rcases hmem' with h | h
              · rw [h]; exact List.mem_cons_self c cs
              · exact List.mem_cons_of_mem c h
            · intro x hx
              rcases List.mem_cons.mp hx with rfl | hxm
              · exact ⟨by rw [hrd]; exact hacc', by rw [hrd]; intro h; exact htie' h⟩
              · exact ⟨by rw [hrd]; exact hall' x hxm,
                  by rw [hrd]; intro h; exact htieall' x hxm h⟩

/-- Witness for C9: on concrete tied inputs, the reduction picks the bucket
with hour 1 among the two hour-buckets of count 7, and the earlier date
among the two date-buckets of count 4; both results are members. -/
theorem busiest_correct_witness :
    (⟨1, 7⟩ : HourBucket) ∈ ([⟨3, 7⟩, ⟨1, 7⟩, ⟨2, 5⟩] : List HourBucket) ∧
    (⟨"2024-01-02", 4⟩ : DayBucket) ∈
      ([⟨"2024-01-05", 4⟩, ⟨"2024-01-02", 4⟩] : List DayBucket) := by
  have h := busiest_correct [⟨3, 7⟩, ⟨1, 7⟩, ⟨2, 5⟩] ⟨1, 7⟩
    [⟨"2024-01-05", 4⟩, ⟨"2024-01-02", 4⟩] ⟨"2024-01-02", 4⟩ (by decide) (by decide)
  exact ⟨h.2.2.1, h.2.2.2.2.1⟩

/-- The `MAX_ZONES` constant (ZoneComparePanel). -/
def MAX_ZONES : Nat := 5

/-- Embedding of `addZone` (ZoneComparePanel): the guard returns without
invoking `onSelectionChange` (modelled as `none`) when the id is already
selected or the selection is full; otherwise `onSelectionChange` receives
the selection with the id appended (modelled as `some`). -/
def addZone (selectedIds : List Nat) (id : Nat) : Option (List Nat) :=
  if id ∈ selectedIds ∨ selectedIds.length ≥ MAX_ZONES then none
  else some (selectedIds ++ [id])

/-- Claim C10 (confirmed): `addZone` leaves the selection unchanged (no
`onSelectionChange` call) when the id is already selected or the selection
already has `MAX_ZONES` entries, otherwise appends the id; it preserves
no-duplicates and the length bound `MAX_ZONES = 5`. -/
theorem addZone_invariant (sel : List Nat) (id : Nat)
    (hnd : sel.Nodup) (hlen : sel.length ≤ MAX_ZONES) :
    (id ∈ sel ∨ MAX_ZONES ≤ sel.length → addZone sel id = none) ∧
    (id ∉ sel ∧ sel.length < MAX_ZONES → addZone sel id = some (sel ++ [id])) ∧
    (∀ sel', addZone sel id = some sel' →
      sel' = sel ++ [id] ∧ sel'.Nodup ∧ sel'.length ≤ MAX_ZONES) := by
  refine ⟨?_, ?_, ?_⟩
  · intro h
    unfold addZone
    rw [if_pos h]
  · intro ⟨h1, h2⟩
    unfold addZone
    rw [if_neg (fun hc => hc.elim h1 (fun hge => absurd hge (not_le.mpr h2)))]
  · intro sel' hs
    unfold addZone at hs
    by_cases hc : id ∈ sel ∨ MAX_ZONES ≤ sel.length
    · rw [if_pos hc] at hs
      exact absurd hs (by simp)
    · rw [if_neg hc] at hs
      push_neg at hc
      have hseq : sel' = sel ++ [id] := (Option.some.inj hs).symm
      refine ⟨hseq, ?_, ?_⟩
      · rw [hseq]
        simp [List.nodup_append, hnd, hc.1]
      · rw [hseq, List.length_append]
        have := hc.2
        simp only [List.length_singleton]
        omega

/-- Witness for C10: adding zone 3 to the duplicate-free selection `[1, 2]`
appends it, and the result keeps the invariant. -/
theorem addZone_invariant_witness :
    addZone [1, 2] 3 = some ([1, 2] ++ [3]) := by
  have h := addZone_invariant [1, 2] 3 (by decide) (by decide)
  exact h.2.1 ⟨by decide, by decide⟩
